import Mathlib

/-!
Shallow embedding of `perfmon_analyzer/analyzer.py` (class `PerfmonAnalyzer`).

Modelling choices:
* pandas cell values after numeric coercion are `Option ℚ` (`none` is the
  "missing" marker / NaN produced by `pd.to_numeric(errors="coerce")`);
  the coercion function itself (`pd.to_numeric` on a raw text cell) is kept
  abstract as a parameter `parse : String → Option ℚ`.
* a DataFrame is a list of named columns in order: `List (String × List cell)`.
* Python strings are Lean `String`s; `str.split`, `str.strip`, `str.lower`
  and the substring test `in` are re-implemented structurally over `List Char`
  so that they compute by kernel reduction (Python semantics: split on a
  single separator character, strip ASCII whitespace, lower-case letters,
  contiguous-substring test).
* Python's stable `list.sort(key=...)` is modelled by `List.insertionSort`
  with the corresponding (total, transitive) key order; a stable sort is
  uniquely determined by the key order, so the choice of algorithm is
  irrelevant.
* the mutable `PerfmonAnalyzer` object is an explicit state record; a method
  that can raise returns `Except AnalyzerError`, and `load` returns the pair
  (raised error if any, state after the call).
-/

/-- Python string comparison (`s1 <= s2`) on code points, as a Bool. -/
def charListLe : List Char → List Char → Bool
  | [], _ => true
  | _ :: _, [] => false
  | a :: as, b :: bs => if a = b then charListLe as bs else decide (a < b)

/-- Python `s1 <= s2` on strings. -/
def strLe (a b : String) : Bool := charListLe a.toList b.toList

/-- Python `str.split(sep)` for a one-character separator. -/
def splitChar (sep : Char) : List Char → List (List Char)
  | [] => [[]]
  | c :: cs =>
    let rest := splitChar sep cs
    if c = sep then [] :: rest
    else
      match rest with
      | r :: rs => (c :: r) :: rs
      | [] => [[c]]

/-- Python `str.strip()` (whitespace trimming at both ends). -/
def trimChars (cs : List Char) : List Char :=
  ((cs.dropWhile Char.isWhitespace).reverse.dropWhile Char.isWhitespace).reverse

/-- Python `str.lower()`. -/
def lowerChars (cs : List Char) : List Char := cs.map Char.toLower

/-- Python substring test `needle in hay` (contiguous substring). -/
def containsSub : List Char → List Char → Bool
  | needle, [] => needle.isEmpty
  | needle, c :: cs => needle.isPrefixOf (c :: cs) || containsSub needle cs

/-- `DEFAULT_CATEGORY_KEYWORDS` from `analyzer.py`, an ordered mapping. -/
def DEFAULT_CATEGORY_KEYWORDS : List (String × List String) :=
  [("CPU", ["cpu", "processor", "% processor", "total processor"]),
   ("GPU", ["gpu", "nvidia", "graphics"]),
   ("Memory", ["memory", "commit", "pagefile", "pool"]),
   ("Disk", ["disk", "storage", "io"]),
   ("Network", ["network", "net", "ethernet", "throughput"])]

/-- `MetricStat` dataclass: min/max/average for a single metric. -/
structure MetricStat where
  name : String
  min : ℚ
  max : ℚ
  avg : ℚ
deriving DecidableEq, Repr

/-- `series.dropna()`: the non-missing values of a column. -/
def dropna (col : List (Option ℚ)) : List ℚ := col.filterMap id

/-- The body of the per-column loop of `PerfmonAnalyzer.metric_stats`:
`none` when the column has no usable values (`series.empty` after `dropna`),
otherwise the `MetricStat` with `series.min()`, `series.max()`,
`series.mean()` (sum divided by count). -/
def statOfColumn (name : String) (col : List (Option ℚ)) : Option MetricStat :=
  match dropna col with
  | [] => none
  | v :: vs =>
    some { name := name
           min := vs.foldl Min.min v
           max := vs.foldl Max.max v
           avg := ((v :: vs).foldl (· + ·) 0) / (((v :: vs).length : ℕ) : ℚ) }

/-- `stats.sort(key=lambda stat: stat.name)`: stable sort by metric name,
ordinal (code point) comparison. -/
def sortStats (stats : List MetricStat) : List MetricStat :=
  stats.insertionSort (fun a b => strLe a.name b.name = true)

/-- `PerfmonAnalyzer.metric_stats` (the computation part, on the numeric
dataframe): one stat per column with at least one usable value, sorted by
name. -/
def metricStats (table : List (String × List (Option ℚ))) : List MetricStat :=
  sortStats (table.filterMap (fun c => statOfColumn c.1 c.2))

/-- `PerfmonAnalyzer._match_category`: first category (in mapping order) one
of whose keywords is a substring of the lower-cased metric name, else
`"Other"`. -/
def matchCategory (kw : List (String × List String)) (name : String) : String :=
  match kw.find? (fun ck =>
      ck.2.any (fun k => containsSub k.toList (lowerChars name.toList))) with
  | some ck => ck.1
  | none => "Other"

/-- `parts = [part.strip() for part in metric_name.split("\\") if part]` —
note the source filters out empty parts BEFORE stripping, so a
whitespace-only part is kept and becomes the empty string. -/
def pathParts (name : String) : List String :=
  (((splitChar '\\' name.toList).filter (fun p => !p.isEmpty)).map
    (fun p => String.mk (trimChars p)))

/-- The segment-count dispatch of `PerfmonAnalyzer._split_perfmon_path`:
`parts[-2], parts[-1]` for 3+ parts, `parts[0], parts[1]` for exactly 2,
and the full metric name for both components otherwise. -/
def splitDispatch (name : String) : String × String :=
  match (pathParts name).reverse with
  | counter :: cat :: _ :: _ => (cat, counter)
  | [counter, cat] => (cat, counter)
  | _ => (name, name)

/-- `PerfmonAnalyzer._split_perfmon_path`: dispatch on segment count, then
normalize the category (`category_part.split("(")[0].strip() or
category_part`), falling back to the keyword classifier when the normalized
category still equals the whole metric name. -/
def split_perfmon_path (kw : List (String × List String)) (name : String) :
    String × String :=
  let dispatched := splitDispatch name
  let category_part := dispatched.1
  let counter := dispatched.2
  let stripped := String.mk (trimChars ((splitChar '(' category_part.toList).headD []))
  let normalized := if stripped = "" then category_part else stripped
  let normalized2 := if normalized = name then matchCategory kw name else normalized
  (normalized2, counter)

/-- A member entry of a category bucket (the dict appended in
`category_stats`). -/
structure MemberEntry where
  name : String
  full_name : String
  min : ℚ
  max : ℚ
  avg : ℚ
deriving DecidableEq, Repr

/-- A finished category bucket (`{"metrics": [...], "min": ..., "max": ...,
"avg": ...}`). -/
structure CategoryBucket where
  metrics : List MemberEntry
  min : ℚ
  max : ℚ
  avg : ℚ
deriving DecidableEq, Repr

/-- The member entry built from a `MetricStat` in `category_stats`, together
with its category. -/
def toMember (kw : List (String × List String)) (stat : MetricStat) :
    String × MemberEntry :=
  let cc := split_perfmon_path kw stat.name
  (cc.1, { name := cc.2, full_name := stat.name,
           min := stat.min, max := stat.max, avg := stat.avg })

/-- `category_stats.setdefault(category, {"metrics": []})["metrics"].append(e)`
on an insertion-ordered dict represented as an association list. -/
def addToBucket (acc : List (String × List MemberEntry)) (cat : String)
    (e : MemberEntry) : List (String × List MemberEntry) :=
  match acc with
  | [] => [(cat, [e])]
  | (c, es) :: rest =>
    if c = cat then (c, es ++ [e]) :: rest
    else (c, es) :: addToBucket rest cat e

/-- The grouping loop of `category_stats`: classify each stat and append its
member entry to the bucket of its category. -/
def groupStats (kw : List (String × List String)) (stats : List MetricStat) :
    List (String × List MemberEntry) :=
  stats.foldl (fun acc stat =>
    let cm := toMember kw stat
    addToBucket acc cm.1 cm.2) []

/-- `metrics.sort(key=lambda entry: entry["name"].lower())`: stable sort of a
bucket's members by lower-cased counter name. -/
def sortMembers (es : List MemberEntry) : List MemberEntry :=
  es.insertionSort
    (fun a b => charListLe (lowerChars a.name.toList) (lowerChars b.name.toList) = true)

/-- The finalization loop of `category_stats`: sort members, then
`min(...)`/`max(...)`/`sum(...)/len(...)` over them.  The empty case cannot
occur (buckets are created only when a member is appended); there Python's
`min()` would raise, modelled by an arbitrary all-zero bucket. -/
def finalizeBucket (es : List MemberEntry) : CategoryBucket :=
  match sortMembers es with
  | [] => { metrics := [], min := 0, max := 0, avg := 0 }
  | m :: rest =>
    { metrics := m :: rest
      min := rest.foldl (fun a x => Min.min a x.min) m.min
      max := rest.foldl (fun a x => Max.max a x.max) m.max
      avg := ((m :: rest).foldl (fun a x => a + x.avg) 0) / ((((m :: rest).length : ℕ)) : ℚ) }

/-- `PerfmonAnalyzer.category_stats` (the computation part, from the metric
stats list): group by category, then finalize every bucket. -/
def categoryStats (kw : List (String × List String)) (stats : List MetricStat) :
    List (String × CategoryBucket) :=
  (groupStats kw stats).map (fun cb => (cb.1, finalizeBucket cb.2))

/-- The errors `load` (and through it, the lazy accessors) can raise:
`FileNotFoundError` (the spec's `SourceNotFound`), `ValueError` for an empty
frame (the spec's `EmptySource`), and `AssertionError` for the `assert`
statements in the accessors. -/
inductive AnalyzerError where
  | sourceNotFound
  | emptySource
  | assertFailed
deriving DecidableEq, Repr

/-- The mutable fields of a `PerfmonAnalyzer` object (the configuration
`category_keywords` plus the four cache slots, all `None` after
`__init__`). -/
structure AnalyzerState where
  category_keywords : List (String × List String)
  _dataframe : Option (List (String × List String))
  _numeric_dataframe : Option (List (String × List (Option ℚ)))
  _metric_stats : Option (List MetricStat)
  _category_stats : Option (List (String × CategoryBucket))
deriving Repr

/-- `PerfmonAnalyzer.__init__`: all cache slots start empty. -/
def initState (kw : List (String × List String)) : AnalyzerState :=
  { category_keywords := kw
    _dataframe := none
    _numeric_dataframe := none
    _metric_stats := none
    _category_stats := none }

/-- `df.empty` for the rectangular frame produced by `read_csv`: no columns
or no rows. -/
def tableEmpty (df : List (String × List String)) : Bool :=
  match df with
  | [] => true
  | (_, vs) :: _ => vs.isEmpty

/-- `df.rename(columns={df.columns[0]: "Timestamp"})`: renaming is by label,
so every column sharing the first column's label is renamed (`read_csv`
itself produces unique labels). -/
def renameTimestamp (df : List (String × List String)) :
    List (String × List String) :=
  match df with
  | [] => []
  | (first, _) :: _ =>
    df.map (fun c => (if c.1 = first then "Timestamp" else c.1, c.2))

/-- `df.drop(columns=["Timestamp"], errors="ignore").apply(pd.to_numeric,
errors="coerce")`: drop every column labeled "Timestamp", then coerce every
cell, unparsable cells becoming the missing marker. -/
def coerceNumeric (parse : String → Option ℚ) (df : List (String × List String)) :
    List (String × List (Option ℚ)) :=
  (df.filter (fun c => c.1 ≠ "Timestamp")).map (fun c => (c.1, c.2.map parse))

/-- `PerfmonAnalyzer.load`: the source is `none` when the file does not
exist.  Returns the raised error (if any) and the state after the call; no
field is assigned before the two raise points, so a failing load returns the
state unchanged. -/
def load (parse : String → Option ℚ) (src : Option (List (String × List String)))
    (st : AnalyzerState) : Option AnalyzerError × AnalyzerState :=
  match src with
  | none => (some .sourceNotFound, st)
  | some df =>
    if tableEmpty df then (some .emptySource, st)
    else
      let df2 := renameTimestamp df
      let numeric := coerceNumeric parse df2
      (none, { st with _dataframe := some df2
                       _numeric_dataframe := some numeric
                       _metric_stats := none
                       _category_stats := none })

/-- The `dataframe` property: return the cached frame, loading first when the
slot is empty (`assert` modelled by `assertFailed`). -/
def dataframe (parse : String → Option ℚ) (src : Option (List (String × List String)))
    (st : AnalyzerState) :
    Except AnalyzerError (List (String × List String) × AnalyzerState) :=
  match st._dataframe with
  | some df => .ok (df, st)
  | none =>
    match load parse src st with
    | (some e, _) => .error e
    | (none, st') =>
      match st'._dataframe with
      | some df => .ok (df, st')
      | none => .error .assertFailed

/-- The `numeric_dataframe` property: same lazy-load pattern on the numeric
slot. -/
def numeric_dataframe (parse : String → Option ℚ)
    (src : Option (List (String × List String))) (st : AnalyzerState) :
    Except AnalyzerError (List (String × List (Option ℚ)) × AnalyzerState) :=
  match st._numeric_dataframe with
  | some nd => .ok (nd, st)
  | none =>
    match load parse src st with
    | (some e, _) => .error e
    | (none, st') =>
      match st'._numeric_dataframe with
      | some nd => .ok (nd, st')
      | none => .error .assertFailed

/-- `PerfmonAnalyzer.metric_stats`: memoized; on a cache miss it reads the
numeric dataframe (possibly loading), computes and caches the sorted stats
list. -/
def metric_stats (parse : String → Option ℚ)
    (src : Option (List (String × List String))) (st : AnalyzerState) :
    Except AnalyzerError (List MetricStat × AnalyzerState) :=
  match st._metric_stats with
  | some ms => .ok (ms, st)
  | none =>
    match numeric_dataframe parse src st with
    | .error e => .error e
    | .ok (nd, st') =>
      let stats := metricStats nd
      .ok (stats, { st' with _metric_stats := some stats })

/-- `PerfmonAnalyzer.category_stats`: memoized; on a cache miss it reads the
metric stats (possibly loading), groups and finalizes the buckets, and
caches the result. -/
def category_stats (parse : String → Option ℚ)
    (src : Option (List (String × List String))) (st : AnalyzerState) :
    Except AnalyzerError (List (String × CategoryBucket) × AnalyzerState) :=
  match st._category_stats with
  | some cs => .ok (cs, st)
  | none =>
    match metric_stats parse src st with
    | .error e => .error e
    | .ok (stats, st') =>
      let cs := categoryStats st'.category_keywords stats
      .ok (cs, { st' with _category_stats := some cs })


lemma foldl_min_le_start (v : ℚ) (vs : List ℚ) : vs.foldl Min.min v ≤ v := by
  induction vs generalizing v with
  | nil => exact le_refl v
  | cons x xs ih =>
    exact le_trans (ih (Min.min v x)) (min_le_left v x)

lemma foldl_min_le_mem : ∀ (vs : List ℚ) (v x : ℚ), x ∈ vs → vs.foldl Min.min v ≤ x := by
  intro vs
  induction vs with
  | nil => intro v x hx; cases hx
  | cons y ys ih =>
    intro v x hx
    rcases List.mem_cons.mp hx with h | h
    · subst h
      exact le_trans (foldl_min_le_start (Min.min v x) ys) (min_le_right v x)
    · exact ih (Min.min v y) x h

lemma foldl_min_mem_or_start (v : ℚ) (vs : List ℚ) :
    vs.foldl Min.min v = v ∨ vs.foldl Min.min v ∈ vs := by
  induction vs generalizing v with
  | nil => exact Or.inl rfl
  | cons x xs ih =>
    rcases ih (Min.min v x) with h | h
    · rcases min_choice v x with hm | hm
      · exact Or.inl (by rw [List.foldl_cons, h, hm])
      · exact Or.inr (by rw [List.foldl_cons, h, hm]; exact List.mem_cons_self x xs)
    · exact Or.inr (List.mem_cons_of_mem x h)

lemma le_foldl_max_start (v : ℚ) (vs : List ℚ) : v ≤ vs.foldl Max.max v := by
  induction vs generalizing v with
  | nil => exact le_refl v
  | cons x xs ih =>
    exact le_trans (le_max_left v x) (ih (Max.max v x))

lemma mem_le_foldl_max : ∀ (vs : List ℚ) (v x : ℚ), x ∈ vs → x ≤ vs.foldl Max.max v := by
  intro vs
  induction vs with
  | nil => intro v x hx; cases hx
  | cons y ys ih =>
    intro v x hx
    rcases List.mem_cons.mp hx with h | h
    · subst h
      exact le_trans (le_max_right v x) (le_foldl_max_start (Max.max v x) ys)
    · exact ih (Max.max v y) x h

lemma foldl_max_mem_or_start (v : ℚ) (vs : List ℚ) :
    vs.foldl Max.max v = v ∨ vs.foldl Max.max v ∈ vs := by
  induction vs generalizing v with
  | nil => exact Or.inl rfl
  | cons x xs ih =>
    rcases ih (Max.max v x) with h | h
    · rcases max_choice v x with hm | hm
      · exact Or.inl (by rw [List.foldl_cons, h, hm])
      · exact Or.inr (by rw [List.foldl_cons, h, hm]; exact List.mem_cons_self x xs)
    · exact Or.inr (List.mem_cons_of_mem x h)

lemma foldl_add_eq_sum (a : ℚ) (l : List ℚ) : l.foldl (· + ·) a = a + l.sum := by
  induction l generalizing a with
  | nil => simp
  | cons x xs ih => rw [List.foldl_cons, ih, List.sum_cons]; ring

lemma mul_length_le_sum : ∀ (l : List ℚ) (m : ℚ), (∀ x ∈ l, m ≤ x) →
    m * (l.length : ℚ) ≤ l.sum := by
  intro l
  induction l with
  | nil => intro m _; simp
  | cons x xs ih =>
    intro m h
    have hx : m ≤ x := h x (List.mem_cons_self x xs)
    have hxs : m * (xs.length : ℚ) ≤ xs.sum :=
      ih m (fun y hy => h y (List.mem_cons_of_mem x hy))
    rw [List.sum_cons, List.length_cons]
    push_cast
    nlinarith

lemma sum_le_mul_length : ∀ (l : List ℚ) (M : ℚ), (∀ x ∈ l, x ≤ M) →
    l.sum ≤ M * (l.length : ℚ) := by
  intro l
  induction l with
  | nil => intro M _; simp
  | cons x xs ih =>
    intro M h
    have hx : x ≤ M := h x (List.mem_cons_self x xs)
    have hxs : xs.sum ≤ M * (xs.length : ℚ) :=
      ih M (fun y hy => h y (List.mem_cons_of_mem x hy))
    rw [List.sum_cons, List.length_cons]
    push_cast
    nlinarith

lemma foldl_min_all_eq : ∀ (vs : List ℚ) (v : ℚ), (∀ x ∈ vs, x = v) →
    vs.foldl Min.min v = v := by
  intro vs
  induction vs with
  | nil => intro v _; rfl
  | cons x xs ih =>
    intro v h
    have hx : x = v := h x (List.mem_cons_self x xs)
    subst hx
    rw [List.foldl_cons, min_self]
    exact ih x (fun y hy => h y (List.mem_cons_of_mem x hy))

lemma foldl_max_all_eq : ∀ (vs : List ℚ) (v : ℚ), (∀ x ∈ vs, x = v) →
    vs.foldl Max.max v = v := by
  intro vs
  induction vs with
  | nil => intro v _; rfl
  | cons x xs ih =>
    intro v h
    have hx : x = v := h x (List.mem_cons_self x xs)
    subst hx
    rw [List.foldl_cons, max_self]
    exact ih x (fun y hy => h y (List.mem_cons_of_mem x hy))

lemma sum_all_eq : ∀ (l : List ℚ) (v : ℚ), (∀ x ∈ l, x = v) →
    l.sum = v * (l.length : ℚ) := by
  intro l
  induction l with
  | nil => intro v _; simp
  | cons x xs ih =>
    intro v h
    have hx : x = v := h x (List.mem_cons_self x xs)
    subst hx
    rw [List.sum_cons, ih x (fun y hy => h y (List.mem_cons_of_mem x hy)),
      List.length_cons]
    push_cast
    ring

/-- The bounds of a per-column stat: its avg lies between its min and max. -/
lemma statOfColumn_bounds {name : String} {col : List (Option ℚ)} {s : MetricStat}
    (h : statOfColumn name col = some s) : s.min ≤ s.avg ∧ s.avg ≤ s.max := by
  unfold statOfColumn at h
  rcases hd : dropna col with _ | ⟨v, vs⟩ <;> rw [hd] at h
  · cases h
  · injection h with h
    subst h
    simp only
    have hn : (0 : ℚ) < (((v :: vs).length : ℕ) : ℚ) := by
      rw [List.length_cons]; push_cast; positivity
    have hmin : ∀ x ∈ v :: vs, vs.foldl Min.min v ≤ x := by
      intro x hx
      rcases List.mem_cons.mp hx with hx | hx
      · subst hx; exact foldl_min_le_start x vs
      · exact foldl_min_le_mem vs v x hx
    have hmax : ∀ x ∈ v :: vs, x ≤ vs.foldl Max.max v := by
      intro x hx
      rcases List.mem_cons.mp hx with hx | hx
      · subst hx; exact le_foldl_max_start x vs
      · exact mem_le_foldl_max vs v x hx
    constructor
    · rw [le_div_iff₀ hn, foldl_add_eq_sum, zero_add]
      exact mul_length_le_sum (v :: vs) _ hmin
    · rw [div_le_iff₀ hn, foldl_add_eq_sum, zero_add]
      exact sum_le_mul_length (v :: vs) _ hmax

/-- The degenerate case of a per-column stat: when all usable values are
equal, min, avg and max coincide. -/
lemma statOfColumn_const {name : String} {col : List (Option ℚ)} {s : MetricStat}
    (h : statOfColumn name col = some s)
    (hconst : ∀ x ∈ dropna col, ∀ y ∈ dropna col, x = y) :
    s.min = s.avg ∧ s.avg = s.max := by
  unfold statOfColumn at h
  rcases hd : dropna col with _ | ⟨v, vs⟩ <;> rw [hd] at h
  · cases h
  · injection h with h
    subst h
    rw [hd] at hconst
    have hvs : ∀ x ∈ vs, x = v := fun x hx =>
      hconst x (List.mem_cons_of_mem v hx) v (List.mem_cons_self v vs)
    have hall : ∀ x ∈ v :: vs, x = v := by
      intro x hx
      rcases List.mem_cons.mp hx with hx | hx
      · exact hx
      · exact hvs x hx
    have hn : ((((v :: vs).length : ℕ)) : ℚ) ≠ 0 := by
      rw [List.length_cons]; push_cast; positivity
    simp only
    rw [foldl_add_eq_sum, zero_add, sum_all_eq (v :: vs) v hall,
      foldl_min_all_eq vs v hvs, foldl_max_all_eq vs v hvs,
      mul_div_assoc, div_self hn, mul_one]
    exact ⟨rfl, rfl⟩

/-- C1: for every loaded table, every MetricStat emitted by `metric_stats()`
satisfies `min ≤ avg ≤ max`, and when the column has a single distinct value
after missing-value removal the three coincide. -/
theorem C1_metric_stat_bounds (t : List (String × List (Option ℚ))) :
    (∀ s ∈ metricStats t, s.min ≤ s.avg ∧ s.avg ≤ s.max) ∧
    (∀ c ∈ t, ∀ s : MetricStat, statOfColumn c.1 c.2 = some s →
      (∀ x ∈ dropna c.2, ∀ y ∈ dropna c.2, x = y) →
      s.min = s.avg ∧ s.avg = s.max) := by
  constructor
  · intro s hs
    have hs' : s ∈ t.filterMap (fun c => statOfColumn c.1 c.2) :=
      (List.perm_insertionSort _ _).mem_iff.mp hs
    rcases List.mem_filterMap.mp hs' with ⟨c, _, hc⟩
    exact statOfColumn_bounds hc
  · intro c _ s h hconst
    exact statOfColumn_const h hconst

/-- A concrete column for the C1 witness: two usable samples, one missing. -/
def w1col : List (Option ℚ) := [some 2, none, some 2]

/-- A concrete one-column table for the C1 witness. -/
def w1table : List (String × List (Option ℚ)) := [("c", w1col)]

/-- The stat the engine computes for `w1col`. -/
def w1stat : MetricStat :=
  (statOfColumn "c" w1col).getD { name := "", min := 0, max := 0, avg := 0 }

/-- Witness for C1 at a concrete single-column table whose usable values are
all equal. -/
theorem C1_metric_stat_bounds_witness :
    (w1stat ∈ metricStats w1table ∧ (w1stat.min ≤ w1stat.avg ∧ w1stat.avg ≤ w1stat.max)) ∧
    (("c", w1col) ∈ w1table ∧ statOfColumn "c" w1col = some w1stat ∧
      (w1stat.min = w1stat.avg ∧ w1stat.avg = w1stat.max)) := by
  have hmem : w1stat ∈ metricStats w1table := by
    rw [show metricStats w1table = [w1stat] from rfl]
    exact List.mem_singleton_self _
  have hcmem : ("c", w1col) ∈ w1table := List.mem_singleton_self _
  exact ⟨⟨hmem, (C1_metric_stat_bounds w1table).1 w1stat hmem⟩,
    ⟨hcmem, rfl,
      (C1_metric_stat_bounds w1table).2 ("c", w1col) hcmem w1stat rfl (by decide)⟩⟩

lemma finalizeBucket_metrics (es : List MemberEntry) :
    (finalizeBucket es).metrics = sortMembers es := by
  unfold finalizeBucket
  rcases h : sortMembers es with _ | ⟨m, rest⟩ <;> simp

lemma addToBucket_values_ne_nil {acc : List (String × List MemberEntry)}
    {cat : String} {e : MemberEntry}
    (h : ∀ ce ∈ acc, ce.2 ≠ []) :
    ∀ ce ∈ addToBucket acc cat e, ce.2 ≠ [] := by
  induction acc with
  | nil =>
    intro ce hce
    rcases List.mem_singleton.mp hce with rfl
    simp
  | cons hd tl ih =>
    rcases hd with ⟨c, es⟩
    intro ce hce
    unfold addToBucket at hce
    by_cases hc : c = cat
    · simp only [hc, if_pos rfl] at hce
      rcases List.mem_cons.mp hce with rfl | hce
      · simp
      · exact h ce (List.mem_cons_of_mem _ hce)
    · simp only [if_neg hc] at hce
      rcases List.mem_cons.mp hce with rfl | hce
      · exact h (c, es) (List.mem_cons_self _ _)
      · exact ih (fun x hx => h x (List.mem_cons_of_mem _ hx)) ce hce

lemma groupStats_values_ne_nil (kw : List (String × List String))
    (stats : List MetricStat) :
    ∀ ce ∈ groupStats kw stats, ce.2 ≠ [] := by
  unfold groupStats
  suffices h : ∀ (l : List MetricStat) (acc : List (String × List MemberEntry)),
      (∀ ce ∈ acc, ce.2 ≠ []) →
      ∀ ce ∈ l.foldl (fun acc stat =>
        let cm := toMember kw stat
        addToBucket acc cm.1 cm.2) acc, ce.2 ≠ [] by
    exact h stats [] (by intro ce hce; cases hce)
  intro l
  induction l with
  | nil => intro acc hacc; exact hacc
  | cons s ss ih =>
    intro acc hacc
    exact ih _ (addToBucket_values_ne_nil hacc)

lemma sortMembers_ne_nil {es : List MemberEntry} (h : es ≠ []) :
    sortMembers es ≠ [] := by
  intro hnil
  apply h
  have := (List.perm_insertionSort
    (fun a b => charListLe (lowerChars a.name.toList) (lowerChars b.name.toList) = true)
    es).length_eq
  rw [show sortMembers es = List.insertionSort _ es from rfl] at hnil
  rw [hnil] at this
  exact List.length_eq_zero.mp this.symm

lemma mem_categoryStats {kw : List (String × List String)} {stats : List MetricStat}
    {cb : String × CategoryBucket} (h : cb ∈ categoryStats kw stats) :
    ∃ es, (cb.1, es) ∈ groupStats kw stats ∧ es ≠ [] ∧ cb.2 = finalizeBucket es := by
  unfold categoryStats at h
  rcases List.mem_map.mp h with ⟨⟨c, es⟩, hmem, heq⟩
  refine ⟨es, ?_, groupStats_values_ne_nil kw stats _ hmem, ?_⟩
  · rw [← heq] at *; exact hmem
  · rw [← heq]

/-- C2: every bucket's min is the minimum of its members' mins, its max the
maximum of their maxes, and its avg the unweighted arithmetic mean of their
avgs. -/
theorem C2_bucket_rollup (kw : List (String × List String)) (stats : List MetricStat) :
    ∀ cb ∈ categoryStats kw stats,
      ((∀ m ∈ cb.2.metrics, cb.2.min ≤ m.min) ∧ (∃ m ∈ cb.2.metrics, cb.2.min = m.min)) ∧
      ((∀ m ∈ cb.2.metrics, m.max ≤ cb.2.max) ∧ (∃ m ∈ cb.2.metrics, cb.2.max = m.max)) ∧
      cb.2.avg = (cb.2.metrics.map MemberEntry.avg).sum / ((cb.2.metrics.length : ℕ) : ℚ) := by
  intro cb hcb
  rcases mem_categoryStats hcb with ⟨es, _, hne, hb⟩
  have hsne : sortMembers es ≠ [] := sortMembers_ne_nil hne
  rcases hs : sortMembers es with _ | ⟨m, rest⟩
  · exact absurd hs hsne
  have hbv : cb.2 = ⟨m :: rest,
      rest.foldl (fun a x => Min.min a x.min) m.min,
      rest.foldl (fun a x => Max.max a x.max) m.max,
      ((m :: rest).foldl (fun a x => a + x.avg) 0) /
        ((((m :: rest).length : ℕ)) : ℚ)⟩ := by
    rw [hb]; unfold finalizeBucket; rw [hs]
  have hminfold : rest.foldl (fun a x => Min.min a x.min) m.min =
      (rest.map MemberEntry.min).foldl Min.min m.min := by
    rw [List.foldl_map]
  have hmaxfold : rest.foldl (fun a x => Max.max a x.max) m.max =
      (rest.map MemberEntry.max).foldl Max.max m.max := by
    rw [List.foldl_map]
  have havgfold : (m :: rest).foldl (fun a x => a + x.avg) 0 =
      ((m :: rest).map MemberEntry.avg).sum := by
    rw [← List.foldl_map, foldl_add_eq_sum, zero_add]
  refine ⟨⟨?_, ?_⟩, ⟨?_, ?_⟩, ?_⟩
  · intro x hx
    rw [hbv] at hx ⊢
    simp only at hx ⊢
    rw [hminfold]
    rcases List.mem_cons.mp hx with rfl | hx
    · exact foldl_min_le_start x.min _
    · exact foldl_min_le_mem _ _ _ (List.mem_map_of_mem MemberEntry.min hx)
  · rw [hbv]
    simp only
    rw [hminfold]
    rcases foldl_min_mem_or_start m.min (rest.map MemberEntry.min) with h | h
    · exact ⟨m, List.mem_cons_self m rest, h⟩
    · rcases List.mem_map.mp h with ⟨x, hx, hxe⟩
      exact ⟨x, List.mem_cons_of_mem m hx, hxe.symm⟩
  · intro x hx
    rw [hbv] at hx ⊢
    simp only at hx ⊢
    rw [hmaxfold]
    rcases List.mem_cons.mp hx with rfl | hx
    · exact le_foldl_max_start x.max _
    · exact mem_le_foldl_max _ _ _ (List.mem_map_of_mem MemberEntry.max hx)
  · rw [hbv]
    simp only
    rw [hmaxfold]
    rcases foldl_max_mem_or_start m.max (rest.map MemberEntry.max) with h | h
    · exact ⟨m, List.mem_cons_self m rest, h⟩
    · rcases List.mem_map.mp h with ⟨x, hx, hxe⟩
      exact ⟨x, List.mem_cons_of_mem m hx, hxe.symm⟩
  · rw [hbv]
    simp only
    rw [havgfold]

/-- A concrete one-stat input for the C2 witness (a two-segment counter
path). -/
def w2stats : List MetricStat :=
  [{ name := "\\CPU x\\ctr", min := 1, max := 2, avg := 1 }]

/-- The single bucket the engine builds from `w2stats`. -/
def w2pair : String × CategoryBucket :=
  (categoryStats DEFAULT_CATEGORY_KEYWORDS w2stats).headD ("", ⟨[], 0, 0, 0⟩)

/-- Witness for C2 at a concrete one-member bucket. -/
theorem C2_bucket_rollup_witness :
    w2pair ∈ categoryStats DEFAULT_CATEGORY_KEYWORDS w2stats ∧
    (((∀ m ∈ w2pair.2.metrics, w2pair.2.min ≤ m.min) ∧
      (∃ m ∈ w2pair.2.metrics, w2pair.2.min = m.min)) ∧
     ((∀ m ∈ w2pair.2.metrics, m.max ≤ w2pair.2.max) ∧
      (∃ m ∈ w2pair.2.metrics, w2pair.2.max = m.max)) ∧
     w2pair.2.avg =
       (w2pair.2.metrics.map MemberEntry.avg).sum /
         ((w2pair.2.metrics.length : ℕ) : ℚ)) := by
  have hmem : w2pair ∈ categoryStats DEFAULT_CATEGORY_KEYWORDS w2stats := by
    rw [show categoryStats DEFAULT_CATEGORY_KEYWORDS w2stats = [w2pair] from rfl]
    exact List.mem_singleton_self _
  exact ⟨hmem, C2_bucket_rollup DEFAULT_CATEGORY_KEYWORDS w2stats w2pair hmem⟩

/-- The claim's reading of the segment rule (stated for comparison with the
code): segments that are empty AFTER trimming whitespace are discarded. -/
def claimPathParts (name : String) : List String :=
  (((splitChar '\\' name.toList).map (fun p => String.mk (trimChars p))).filter
    (fun p => p ≠ ""))

/-- The claim's dispatch, applied to its own segment list. -/
def claimDispatch (name : String) : String × String :=
  match (claimPathParts name).reverse with
  | counter :: cat :: _ :: _ => (cat, counter)
  | [counter, cat] => (cat, counter)
  | _ => (name, name)

/-- Counterexample to C3 as stated: on `a\ \b` the whitespace-only middle
segment is kept by the code (becoming `""` after stripping, so three
segments and category `""`), while the claim's trim-then-discard rule leaves
two segments and category `"a"`. -/
theorem C3_cex_whitespace_segment :
    claimPathParts "a\\ \\b" = ["a", "b"] ∧
    claimDispatch "a\\ \\b" = ("a", "b") ∧
    pathParts "a\\ \\b" = ["a", "", "b"] ∧
    splitDispatch "a\\ \\b" = ("", "b") ∧
    splitDispatch "a\\ \\b" ≠ claimDispatch "a\\ \\b" := by
  refine ⟨rfl, rfl, rfl, rfl, ?_⟩
  decide

/-- C3 (amended): the classifier splits on backslash, discards segments that
are empty BEFORE trimming, trims the kept segments (so a whitespace-only
segment is kept as an empty string and still counts); on the resulting list,
3+ segments give (second-to-last, last), exactly 2 give (first, second), and
0 or 1 give the full metric name for both components. -/
theorem C3_split_dispatch (name : String) :
    (∀ xs cat ctr, pathParts name = xs ++ [cat, ctr] → xs ≠ [] →
      splitDispatch name = (cat, ctr)) ∧
    (∀ cat ctr, pathParts name = [cat, ctr] → splitDispatch name = (cat, ctr)) ∧
    ((pathParts name).length ≤ 1 → splitDispatch name = (name, name)) := by
  refine ⟨?_, ?_, ?_⟩
  · intro xs cat ctr h hne
    unfold splitDispatch
    rw [h]
    have hrev : xs.reverse ≠ [] := by
      intro hnil
      exact hne (List.reverse_eq_nil_iff.mp hnil)
    obtain ⟨y, ys, hys⟩ := List.exists_cons_of_ne_nil hrev
    simp [List.reverse_append, hys]
  · intro cat ctr h
    unfold splitDispatch
    rw [h]
    rfl
  · intro h
    rcases hp : pathParts name with _ | ⟨x, _ | ⟨y, rest⟩⟩
    · unfold splitDispatch; rw [hp]; rfl
    · unfold splitDispatch; rw [hp]; rfl
    · rw [hp] at h; simp at h

/-- Witness for C3 (amended) at the spec's own worked example. -/
theorem C3_split_dispatch_witness :
    pathParts "\\Processor(_Total)\\% Processor Time" =
      ["Processor(_Total)", "% Processor Time"] ∧
    splitDispatch "\\Processor(_Total)\\% Processor Time" =
      ("Processor(_Total)", "% Processor Time") := by
  have h : pathParts "\\Processor(_Total)\\% Processor Time" =
      ["Processor(_Total)", "% Processor Time"] := rfl
  exact ⟨h, (C3_split_dispatch "\\Processor(_Total)\\% Processor Time").2.1
    "Processor(_Total)" "% Processor Time" h⟩

/-- A raw table whose second column is literally headed "Timestamp". -/
def w4df : List (String × List String) :=
  [("Time", ["1"]), ("Timestamp", ["2"]), ("A", ["3"])]

/-- A concrete cell parser for the C4 input. -/
def w4parse : String → Option ℚ :=
  fun s => if s = "1" then some 1 else if s = "2" then some 2
    else if s = "3" then some 3 else none

/-- Counterexample to C4 as stated: on a table with columns
`Time, Timestamp, A`, the raw column named "Timestamp" — which is NOT the
first column — is also excluded from numeric processing (dropping by label
removes every column labeled "Timestamp" after the rename), so the
NumericTable is missing a non-first raw column. -/
theorem C4_cex_second_timestamp_column :
    (renameTimestamp w4df).map Prod.fst = ["Timestamp", "Timestamp", "A"] ∧
    (coerceNumeric w4parse (renameTimestamp w4df)).map Prod.fst = ["A"] ∧
    "Timestamp" ∈ (w4df.map Prod.fst).tail ∧
    "Timestamp" ∉ (coerceNumeric w4parse (renameTimestamp w4df)).map Prod.fst := by
  refine ⟨rfl, rfl, ?_, ?_⟩ <;> decide

/-- C4 (amended): when no non-first column shares the first column's label or
is itself labeled "Timestamp", exactly the first column is renamed to
"Timestamp" and excluded, and the NumericTable consists of the remaining
columns with every cell fed through the numeric coercion (yielding a value
or the missing marker). -/
theorem C4_load_numeric (parse : String → Option ℚ) (first : String)
    (fvs : List String) (rest : List (String × List String))
    (hn : ∀ c ∈ rest, c.1 ≠ first ∧ c.1 ≠ "Timestamp") :
    renameTimestamp ((first, fvs) :: rest) = ("Timestamp", fvs) :: rest ∧
    coerceNumeric parse (renameTimestamp ((first, fvs) :: rest)) =
      rest.map (fun c => (c.1, c.2.map parse)) := by
  have hren : renameTimestamp ((first, fvs) :: rest) = ("Timestamp", fvs) :: rest := by
    unfold renameTimestamp
    simp only [List.map_cons, if_pos rfl]
    congr 1
    have : ∀ c ∈ rest, (fun c : String × List String =>
        (if c.1 = first then "Timestamp" else c.1, c.2)) c = c := by
      intro c hc
      simp [if_neg (hn c hc).1]
    rw [List.map_congr_left this]
    simp
  refine ⟨hren, ?_⟩
  rw [hren]
  unfold coerceNumeric
  have hfilter : (("Timestamp", fvs) :: rest).filter
      (fun c => c.1 ≠ "Timestamp") = rest := by
    rw [List.filter_cons]
    norm_num
    intro a b hab
    exact (hn (a, b) hab).2
  rw [hfilter]

/-- Witness for C4 (amended) at a concrete two-column table. -/
theorem C4_load_numeric_witness :
    (∀ c ∈ [("A", ["3"])], Prod.fst c ≠ "Time" ∧ Prod.fst c ≠ "Timestamp") ∧
    renameTimestamp [("Time", ["1"]), ("A", ["3"])] =
      [("Timestamp", ["1"]), ("A", ["3"])] ∧
    coerceNumeric w4parse (renameTimestamp [("Time", ["1"]), ("A", ["3"])]) =
      [("A", [some (3 : ℚ)])] := by
  refine ⟨by decide, ?_, ?_⟩
  · exact (C4_load_numeric w4parse "Time" ["1"] [("A", ["3"])] (by decide)).1
  · exact ((C4_load_numeric w4parse "Time" ["1"] [("A", ["3"])] (by decide)).2).trans rfl

/-- C5: `load()` raises SourceNotFound for a missing source and EmptySource
for a source with zero data rows; a failing load raises before any
assignment, leaving every cached field exactly as it was. -/
theorem C5_load_failure (parse : String → Option ℚ) :
    (∀ st : AnalyzerState,
      load parse none st = (some AnalyzerError.sourceNotFound, st)) ∧
    (∀ (df : List (String × List String)) (st : AnalyzerState),
      tableEmpty df = true →
      load parse (some df) st = (some AnalyzerError.emptySource, st)) ∧
    (∀ (df : List (String × List String)) (st : AnalyzerState),
      tableEmpty df = false → (load parse (some df) st).1 = none) ∧
    (∀ (src : Option (List (String × List String))) (st : AnalyzerState)
      (e : AnalyzerError) (st' : AnalyzerState),
      load parse src st = (some e, st') → st' = st) := by
  refine ⟨fun st => rfl, ?_, ?_, ?_⟩
  · intro df st h
    simp [load, h]
  · intro df st h
    simp [load, h]
  · intro src st e st' h
    rcases src with _ | df
    · unfold load at h
      injection h with _ h2
      exact h2.symm
    · rcases hdf : tableEmpty df with _ | _
      · simp [load, hdf] at h
      · simp [load, hdf] at h
        exact h.2.symm

/-- Witness for C5 at concrete sources: a missing source, a source with a
header but zero rows, and a non-empty source. -/
theorem C5_load_failure_witness :
    load w4parse none (initState DEFAULT_CATEGORY_KEYWORDS) =
      (some AnalyzerError.sourceNotFound, initState DEFAULT_CATEGORY_KEYWORDS) ∧
    tableEmpty [("Timestamp", [])] = true ∧
    load w4parse (some [("Timestamp", [])]) (initState DEFAULT_CATEGORY_KEYWORDS) =
      (some AnalyzerError.emptySource, initState DEFAULT_CATEGORY_KEYWORDS) ∧
    tableEmpty [("T", ["x"]), ("A", ["1"])] = false ∧
    (load w4parse (some [("T", ["x"]), ("A", ["1"])])
      (initState DEFAULT_CATEGORY_KEYWORDS)).1 = none := by
  refine ⟨(C5_load_failure w4parse).1 _, rfl,
    (C5_load_failure w4parse).2.1 _ _ rfl, rfl,
    (C5_load_failure w4parse).2.2.1 _ _ rfl⟩

/-- C8: `metric_stats()` and `category_stats()` memoize: a successful call
leaves its result in the cache slot, so an immediately repeated call returns
the identical result from the cache; only a successful `load()` resets the
two cache slots. -/
theorem C8_memoized_reads (parse : String → Option ℚ)
    (src : Option (List (String × List String))) :
    (∀ (st : AnalyzerState) (ms : List MetricStat) (st' : AnalyzerState),
      metric_stats parse src st = .ok (ms, st') →
      st'._metric_stats = some ms ∧
      metric_stats parse src st' = .ok (ms, st')) ∧
    (∀ (st : AnalyzerState) (cs : List (String × CategoryBucket)) (st' : AnalyzerState),
      category_stats parse src st = .ok (cs, st') →
      st'._category_stats = some cs ∧
      category_stats parse src st' = .ok (cs, st')) ∧
    (∀ (st : AnalyzerState) (ms : List MetricStat)
      (cs : List (String × CategoryBucket)) (st' : AnalyzerState),
      st._metric_stats = some ms →
      category_stats parse src st = .ok (cs, st') →
      st'._metric_stats = some ms) ∧
    (∀ (st st' : AnalyzerState), load parse src st = (none, st') →
      st'._metric_stats = none ∧ st'._category_stats = none) := by
  have hms : ∀ (st : AnalyzerState) (ms : List MetricStat) (st' : AnalyzerState),
      metric_stats parse src st = .ok (ms, st') → st'._metric_stats = some ms := by
    intro st ms st' h
    unfold metric_stats at h
    rcases hc : st._metric_stats with _ | ms0 <;> rw [hc] at h
    · rcases hn : numeric_dataframe parse src st with e | ⟨nd, st1⟩ <;> rw [hn] at h
      · cases h
      · injection h with h
        injection h with h1 h2
        rw [← h2]
        simp [← h1]
    · injection h with h
      injection h with h1 h2
      rw [← h2, hc, h1]
  have hcs : ∀ (st : AnalyzerState) (cs : List (String × CategoryBucket)) (st' : AnalyzerState),
      category_stats parse src st = .ok (cs, st') → st'._category_stats = some cs := by
    intro st cs st' h
    unfold category_stats at h
    rcases hc : st._category_stats with _ | cs0 <;> rw [hc] at h
    · rcases hn : metric_stats parse src st with e | ⟨stats, st1⟩ <;> rw [hn] at h
      · cases h
      · injection h with h
        injection h with h1 h2
        rw [← h2]
        simp [← h1]
    · injection h with h
      injection h with h1 h2
      rw [← h2, hc, h1]
  refine ⟨?_, ?_, ?_, ?_⟩
  · intro st ms st' h
    have hcache := hms st ms st' h
    refine ⟨hcache, ?_⟩
    unfold metric_stats
    rw [hcache]
  · intro st cs st' h
    have hcache := hcs st cs st' h
    refine ⟨hcache, ?_⟩
    unfold category_stats
    rw [hcache]
  · intro st ms cs st' hm h
    unfold category_stats at h
    rcases hc : st._category_stats with _ | cs0 <;> rw [hc] at h
    · have hmet : metric_stats parse src st = .ok (ms, st) := by
        unfold metric_stats
        rw [hm]
      rw [hmet] at h
      injection h with h
      injection h with h1 h2
      rw [← h2]
      exact hm
    · injection h with h
      injection h with h1 h2
      rw [← h2]
      exact hm
  · intro st st' h
    rcases src with _ | df
    · unfold load at h
      cases h
    · rcases hdf : tableEmpty df with _ | _
      · simp [load, hdf] at h
        rw [← h]
        exact ⟨rfl, rfl⟩
      · simp [load, hdf] at h

/-- A concrete non-empty source for the memoization witness. -/
def w8src : Option (List (String × List String)) := some [("T", ["x"]), ("A", ["3"])]

/-- The result of the first `metric_stats()` call on a fresh engine. -/
def w8pair : List MetricStat × AnalyzerState :=
  (metric_stats w4parse w8src (initState DEFAULT_CATEGORY_KEYWORDS)).toOption.getD
    ([], initState [])

/-- The result of the first `category_stats()` call on a fresh engine. -/
def w8cpair : List (String × CategoryBucket) × AnalyzerState :=
  (category_stats w4parse w8src (initState DEFAULT_CATEGORY_KEYWORDS)).toOption.getD
    ([], initState [])

/-- The state after a successful `load()` on a fresh engine. -/
def w8loaded : AnalyzerState :=
  (load w4parse w8src (initState DEFAULT_CATEGORY_KEYWORDS)).2

/-- The result of a `category_stats()` call on the state cached by the first
`metric_stats()` call. -/
def w8cpair2 : List (String × CategoryBucket) × AnalyzerState :=
  (category_stats w4parse w8src w8pair.2).toOption.getD ([], initState [])

/-- Witness for C8 at a concrete source and fresh engine state. -/
theorem C8_memoized_reads_witness :
    metric_stats w4parse w8src (initState DEFAULT_CATEGORY_KEYWORDS) = .ok w8pair ∧
    (w8pair.2._metric_stats = some w8pair.1 ∧
     metric_stats w4parse w8src w8pair.2 = .ok w8pair) ∧
    category_stats w4parse w8src (initState DEFAULT_CATEGORY_KEYWORDS) = .ok w8cpair ∧
    (w8cpair.2._category_stats = some w8cpair.1 ∧
     category_stats w4parse w8src w8cpair.2 = .ok w8cpair) ∧
    (w8pair.2._metric_stats = some w8pair.1 ∧
     category_stats w4parse w8src w8pair.2 = .ok w8cpair2 ∧
     w8cpair2.2._metric_stats = some w8pair.1) ∧
    load w4parse w8src (initState DEFAULT_CATEGORY_KEYWORDS) = (none, w8loaded) ∧
    (w8loaded._metric_stats = none ∧ w8loaded._category_stats = none) := by
  have h1 : metric_stats w4parse w8src (initState DEFAULT_CATEGORY_KEYWORDS) =
      .ok w8pair := rfl
  have h2 : category_stats w4parse w8src (initState DEFAULT_CATEGORY_KEYWORDS) =
      .ok w8cpair := rfl
  have h3 : load w4parse w8src (initState DEFAULT_CATEGORY_KEYWORDS) =
      (none, w8loaded) := rfl
  have h4 : category_stats w4parse w8src w8pair.2 = .ok w8cpair2 := rfl
  have hm1 : w8pair.2._metric_stats = some w8pair.1 :=
    ((C8_memoized_reads w4parse w8src).1 _ w8pair.1 w8pair.2 h1).1
  exact ⟨h1, (C8_memoized_reads w4parse w8src).1 _ w8pair.1 w8pair.2 h1,
    h2, (C8_memoized_reads w4parse w8src).2.1 _ w8cpair.1 w8cpair.2 h2,
    ⟨hm1, h4, (C8_memoized_reads w4parse w8src).2.2.1 w8pair.2 w8pair.1
      w8cpair2.1 w8cpair2.2 hm1 h4⟩,
    h3, (C8_memoized_reads w4parse w8src).2.2.2 _ w8loaded h3⟩

/-- C9: on an engine that has never loaded (all cache slots empty), the lazy
accessors and both stats methods first perform `load()`: they raise exactly
the load-time errors for a missing or empty source, and on a loadable source
they return the statistics of that source — never an empty result from an
unloaded engine. -/
theorem C9_lazy_first_load (parse : String → Option ℚ)
    (kw : List (String × List String)) :
    (dataframe parse none (initState kw) = .error .sourceNotFound ∧
     numeric_dataframe parse none (initState kw) = .error .sourceNotFound ∧
     metric_stats parse none (initState kw) = .error .sourceNotFound ∧
     category_stats parse none (initState kw) = .error .sourceNotFound) ∧
    (∀ df, tableEmpty df = true →
      dataframe parse (some df) (initState kw) = .error .emptySource ∧
      numeric_dataframe parse (some df) (initState kw) = .error .emptySource ∧
      metric_stats parse (some df) (initState kw) = .error .emptySource ∧
      category_stats parse (some df) (initState kw) = .error .emptySource) ∧
    (∀ df, tableEmpty df = false →
      (∃ st', dataframe parse (some df) (initState kw) =
        .ok (renameTimestamp df, st')) ∧
      (∃ st', numeric_dataframe parse (some df) (initState kw) =
        .ok (coerceNumeric parse (renameTimestamp df), st')) ∧
      (∃ st', metric_stats parse (some df) (initState kw) =
        .ok (metricStats (coerceNumeric parse (renameTimestamp df)), st')) ∧
      (∃ st', category_stats parse (some df) (initState kw) =
        .ok (categoryStats kw
          (metricStats (coerceNumeric parse (renameTimestamp df))), st'))) := by
  refine ⟨⟨rfl, rfl, rfl, rfl⟩, ?_, ?_⟩
  · intro df h
    refine ⟨?_, ?_, ?_, ?_⟩ <;>
      simp [dataframe, numeric_dataframe, metric_stats, category_stats,
        load, initState, h]
  · intro df h
    have hload : load parse (some df)
        (⟨kw, none, none, none, none⟩ : AnalyzerState) = (none,
        ⟨kw, some (renameTimestamp df),
          some (coerceNumeric parse (renameTimestamp df)), none, none⟩) := by
      simp [load, h]
    refine ⟨⟨⟨kw, some (renameTimestamp df),
        some (coerceNumeric parse (renameTimestamp df)), none, none⟩, ?_⟩,
      ⟨⟨kw, some (renameTimestamp df),
        some (coerceNumeric parse (renameTimestamp df)), none, none⟩, ?_⟩,
      ⟨⟨kw, some (renameTimestamp df),
        some (coerceNumeric parse (renameTimestamp df)),
        some (metricStats (coerceNumeric parse (renameTimestamp df))), none⟩, ?_⟩,
      ⟨⟨kw, some (renameTimestamp df),
        some (coerceNumeric parse (renameTimestamp df)),
        some (metricStats (coerceNumeric parse (renameTimestamp df))),
        some (categoryStats kw
          (metricStats (coerceNumeric parse (renameTimestamp df))))⟩, ?_⟩⟩ <;>
      simp only [dataframe, numeric_dataframe, metric_stats, category_stats,
        initState] <;> rw [hload]

/-- Witness for C9 at a concrete empty and a concrete loadable source. -/
theorem C9_lazy_first_load_witness :
    tableEmpty [("Timestamp", [])] = true ∧
    metric_stats w4parse (some [("Timestamp", [])])
      (initState DEFAULT_CATEGORY_KEYWORDS) = .error .emptySource ∧
    tableEmpty [("T", ["x"]), ("A", ["3"])] = false ∧
    (∃ st', metric_stats w4parse (some [("T", ["x"]), ("A", ["3"])])
      (initState DEFAULT_CATEGORY_KEYWORDS) =
      .ok (metricStats (coerceNumeric w4parse
        (renameTimestamp [("T", ["x"]), ("A", ["3"])])), st')) := by
  refine ⟨rfl, ?_, rfl, ?_⟩
  · exact ((C9_lazy_first_load w4parse DEFAULT_CATEGORY_KEYWORDS).2.1
      [("Timestamp", [])] rfl).2.2.1
  · exact ((C9_lazy_first_load w4parse DEFAULT_CATEGORY_KEYWORDS).2.2
      [("T", ["x"]), ("A", ["3"])] rfl).2.2.1

lemma find?_append_first {α : Type} (p : α → Bool) :
    ∀ (pre : List α) (x : α) (post : List α),
    p x = true → (∀ y ∈ pre, p y = false) →
    List.find? p (pre ++ x :: post) = some x := by
  intro pre
  induction pre with
  | nil =>
    intro x post hx _
    rw [List.nil_append, List.find?_cons_of_pos _ hx]
  | cons q qs ih =>
    intro x post hx hpre
    rw [List.cons_append,
      List.find?_cons_of_neg _ (by simp [hpre q (List.mem_cons_self q qs)])]
    exact ih x post hx (fun y hy => hpre y (List.mem_cons_of_mem q hy))

/-- C6: the keyword classifier lower-cases the name and returns the first
category (in mapping order) having a keyword that is a substring of the
lower-cased name; with no match anywhere it returns "Other". -/
theorem C6_keyword_precedence (name : String) :
    (∀ (pre : List (String × List String)) (cat : String) (ks : List String)
      (post : List (String × List String)),
      ks.any (fun k => containsSub k.toList (lowerChars name.toList)) = true →
      (∀ ck ∈ pre,
        ck.2.any (fun k => containsSub k.toList (lowerChars name.toList)) = false) →
      matchCategory (pre ++ (cat, ks) :: post) name = cat) ∧
    (∀ kw : List (String × List String),
      (∀ ck ∈ kw,
        ck.2.any (fun k => containsSub k.toList (lowerChars name.toList)) = false) →
      matchCategory kw name = "Other") := by
  constructor
  · intro pre cat ks post hm hpre
    unfold matchCategory
    rw [find?_append_first _ pre (cat, ks) post hm hpre]
  · intro kw hnone
    unfold matchCategory
    rw [List.find?_eq_none.mpr (fun x hx => by rw [hnone x hx]; exact Bool.false_ne_true)]

/-- Witness for C6 at the spec's own examples: "CPU Memory Pool" matches both
CPU and Memory keywords but CPU is listed first; "AvailableMBytes" matches
nothing and falls back to "Other". -/
theorem C6_keyword_precedence_witness :
    (["cpu", "processor", "% processor", "total processor"].any
      (fun k => containsSub k.toList (lowerChars "CPU Memory Pool".toList)) = true) ∧
    (["memory", "commit", "pagefile", "pool"].any
      (fun k => containsSub k.toList (lowerChars "CPU Memory Pool".toList)) = true) ∧
    matchCategory DEFAULT_CATEGORY_KEYWORDS "CPU Memory Pool" = "CPU" ∧
    (∀ ck ∈ DEFAULT_CATEGORY_KEYWORDS,
      ck.2.any (fun k => containsSub k.toList (lowerChars "AvailableMBytes".toList)) = false) ∧
    matchCategory DEFAULT_CATEGORY_KEYWORDS "AvailableMBytes" = "Other" := by
  refine ⟨by decide, by decide, ?_, by decide, ?_⟩
  · exact (C6_keyword_precedence "CPU Memory Pool").1 []
      "CPU" ["cpu", "processor", "% processor", "total processor"]
      [("GPU", ["gpu", "nvidia", "graphics"]),
       ("Memory", ["memory", "commit", "pagefile", "pool"]),
       ("Disk", ["disk", "storage", "io"]),
       ("Network", ["network", "net", "ethernet", "throughput"])]
      (by decide) (by decide)
  · exact (C6_keyword_precedence "AvailableMBytes").2 DEFAULT_CATEGORY_KEYWORDS
      (by decide)


lemma flatten_addToBucket (cat : String) (e : MemberEntry) :
    ∀ acc : List (String × List MemberEntry),
    ((addToBucket acc cat e).map Prod.snd).flatten.Perm
      ((acc.map Prod.snd).flatten ++ [e]) := by
  intro acc
  induction acc with
  | nil => simp [addToBucket]
  | cons hd tl ih =>
    rcases hd with ⟨c, es⟩
    unfold addToBucket
    by_cases hc : c = cat
    · subst hc
      rw [if_pos rfl]
      simp only [List.map_cons, List.flatten_cons]
      rw [List.append_assoc, List.append_assoc]
      exact List.Perm.append_left es List.perm_append_comm
    · rw [if_neg hc]
      simp only [List.map_cons, List.flatten_cons]
      rw [List.append_assoc]
      exact List.Perm.append_left es ih

lemma flatten_groupStats (kw : List (String × List String)) (stats : List MetricStat) :
    ((groupStats kw stats).map Prod.snd).flatten.Perm
      (stats.map (fun s => (toMember kw s).2)) := by
  unfold groupStats
  suffices h : ∀ (l : List MetricStat) (acc : List (String × List MemberEntry)),
      ((l.foldl (fun acc stat =>
          let cm := toMember kw stat
          addToBucket acc cm.1 cm.2) acc).map Prod.snd).flatten.Perm
        ((acc.map Prod.snd).flatten ++ l.map (fun s => (toMember kw s).2)) by
    have := h stats []
    simpa using this
  intro l
  induction l with
  | nil => intro acc; simp
  | cons s ss ih =>
    intro acc
    simp only [List.foldl_cons, List.map_cons]
    refine List.Perm.trans (ih _) ?_
    refine List.Perm.trans
      (List.Perm.append_right _ (flatten_addToBucket _ _ acc)) ?_
    rw [List.append_assoc]
    exact List.Perm.refl _

lemma flatten_categoryStats (kw : List (String × List String))
    (stats : List MetricStat) :
    ((categoryStats kw stats).map (fun cb => cb.2.metrics)).flatten.Perm
      (stats.map (fun s => (toMember kw s).2)) := by
  refine List.Perm.trans ?_ (flatten_groupStats kw stats)
  unfold categoryStats
  rw [List.map_map]
  have h : ∀ L : List (String × List MemberEntry),
      ((L.map (fun cb => (finalizeBucket cb.2).metrics)).flatten).Perm
        ((L.map Prod.snd).flatten) := by
    intro L
    induction L with
    | nil => simp
    | cons hd tl ihl =>
      simp only [List.map_cons, List.flatten_cons]
      refine List.Perm.append ?_ ihl
      rw [finalizeBucket_metrics]
      exact List.perm_insertionSort _ _
  exact h (groupStats kw stats)

lemma addToBucket_keys (cat : String) (e : MemberEntry) :
    ∀ acc : List (String × List MemberEntry),
    (addToBucket acc cat e).map Prod.fst =
      if cat ∈ acc.map Prod.fst then acc.map Prod.fst
      else acc.map Prod.fst ++ [cat] := by
  intro acc
  induction acc with
  | nil => simp [addToBucket]
  | cons hd tl ih =>
    rcases hd with ⟨c, es⟩
    unfold addToBucket
    by_cases hc : c = cat
    · simp [hc]
    · simp only [if_neg hc, List.map_cons, ih]
      by_cases hmem : cat ∈ tl.map Prod.fst
      · simp [hmem, Ne.symm hc]
      · simp [hmem, Ne.symm hc]

lemma addToBucket_keys_nodup {acc : List (String × List MemberEntry)}
    {cat : String} {e : MemberEntry} (h : (acc.map Prod.fst).Nodup) :
    ((addToBucket acc cat e).map Prod.fst).Nodup := by
  rw [addToBucket_keys]
  by_cases hmem : cat ∈ acc.map Prod.fst
  · simpa [hmem] using h
  · simp only [if_neg hmem]
    rw [List.nodup_append]
    refine ⟨h, List.nodup_singleton cat, ?_⟩
    intro a ha hb
    rw [List.mem_singleton] at hb
    subst hb
    exact hmem ha

lemma groupStats_keys_nodup (kw : List (String × List String))
    (stats : List MetricStat) : ((groupStats kw stats).map Prod.fst).Nodup := by
  unfold groupStats
  suffices h : ∀ (l : List MetricStat) (acc : List (String × List MemberEntry)),
      (acc.map Prod.fst).Nodup →
      ((l.foldl (fun acc stat =>
          let cm := toMember kw stat
          addToBucket acc cm.1 cm.2) acc).map Prod.fst).Nodup by
    exact h stats [] List.nodup_nil
  intro l
  induction l with
  | nil => intro acc hacc; exact hacc
  | cons s ss ih =>
    intro acc hacc
    exact ih _ (addToBucket_keys_nodup hacc)

lemma categoryStats_keys (kw : List (String × List String))
    (stats : List MetricStat) :
    (categoryStats kw stats).map Prod.fst = (groupStats kw stats).map Prod.fst := by
  unfold categoryStats
  rw [List.map_map]
  rfl


/-- C10: the buckets of `category_stats()` partition the metric stats list:
the multiset of all member entries across buckets is exactly one entry per
MetricStat, carrying `full_name = stat.name` and the stat's min/max/avg
unchanged; bucket categories are pairwise distinct; and every bucket has at
least one member (so the bucket-average division is well-defined). -/
theorem C10_buckets_partition (kw : List (String × List String))
    (stats : List MetricStat) :
    ((categoryStats kw stats).map (fun cb => cb.2.metrics)).flatten.Perm
      (stats.map (fun s => (toMember kw s).2)) ∧
    ((categoryStats kw stats).map Prod.fst).Nodup ∧
    (∀ cb ∈ categoryStats kw stats, cb.2.metrics ≠ []) ∧
    (∀ s : MetricStat,
      (toMember kw s).2.full_name = s.name ∧
      (toMember kw s).2.min = s.min ∧
      (toMember kw s).2.max = s.max ∧
      (toMember kw s).2.avg = s.avg ∧
      (toMember kw s).2.name = (split_perfmon_path kw s.name).2 ∧
      (toMember kw s).1 = (split_perfmon_path kw s.name).1) := by
  refine ⟨flatten_categoryStats kw stats, ?_, ?_, ?_⟩
  · rw [categoryStats_keys]
    exact groupStats_keys_nodup kw stats
  · intro cb hcb
    rcases mem_categoryStats hcb with ⟨es, _, hne, hb⟩
    rw [hb, finalizeBucket_metrics]
    exact sortMembers_ne_nil hne
  · intro s
    refine ⟨?_, ?_, ?_, ?_, ?_, ?_⟩ <;> rfl

/-- Witness for C10 at the concrete one-stat input `w2stats`. -/
theorem C10_buckets_partition_witness :
    ((categoryStats DEFAULT_CATEGORY_KEYWORDS w2stats).map
      (fun cb => cb.2.metrics)).flatten.Perm
      (w2stats.map (fun s => (toMember DEFAULT_CATEGORY_KEYWORDS s).2)) ∧
    ((categoryStats DEFAULT_CATEGORY_KEYWORDS w2stats).map Prod.fst).Nodup ∧
    (w2pair ∈ categoryStats DEFAULT_CATEGORY_KEYWORDS w2stats ∧
      w2pair.2.metrics ≠ []) := by
  have hmem : w2pair ∈ categoryStats DEFAULT_CATEGORY_KEYWORDS w2stats := by
    rw [show categoryStats DEFAULT_CATEGORY_KEYWORDS w2stats = [w2pair] from rfl]
    exact List.mem_singleton_self _
  exact ⟨(C10_buckets_partition DEFAULT_CATEGORY_KEYWORDS w2stats).1,
    (C10_buckets_partition DEFAULT_CATEGORY_KEYWORDS w2stats).2.1,
    hmem,
    (C10_buckets_partition DEFAULT_CATEGORY_KEYWORDS w2stats).2.2.1 w2pair hmem⟩

lemma charListLe_total : ∀ (as bs : List Char),
    charListLe as bs = true ∨ charListLe bs as = true := by
  intro as
  induction as with
  | nil => intro bs; exact Or.inl rfl
  | cons a as' ih =>
    intro bs
    cases bs with
    | nil => exact Or.inr rfl
    | cons b bs' =>
      by_cases hab : a = b
      · subst hab
        rcases ih bs' with h | h
        · exact Or.inl (by simp [charListLe, h])
        · exact Or.inr (by simp [charListLe, h])
      · rcases lt_or_gt_of_ne hab with h | h
        · exact Or.inl (by simp [charListLe, hab, h])
        · exact Or.inr (by simp [charListLe, Ne.symm hab, h])

lemma charListLe_trans : ∀ (as bs cs : List Char),
    charListLe as bs = true → charListLe bs cs = true →
    charListLe as cs = true := by
  intro as
  induction as with
  | nil => intro bs cs _ _; rfl
  | cons a as' ih =>
    intro bs cs h1 h2
    cases bs with
    | nil => simp [charListLe] at h1
    | cons b bs' =>
      cases cs with
      | nil => simp [charListLe] at h2
      | cons c cs' =>
        by_cases hab : a = b
        · subst hab
          by_cases hbc : a = c
          · subst hbc
            simp only [charListLe, if_pos rfl] at h1 h2 ⊢
            exact ih bs' cs' h1 h2
          · simp only [charListLe, if_pos rfl] at h1
            simp only [charListLe, if_neg hbc] at h2 ⊢
            exact h2
        · by_cases hbc : b = c
          · subst hbc
            simp only [charListLe, if_neg hab] at h1 ⊢
            exact h1
          · simp only [charListLe, if_neg hab] at h1
            simp only [charListLe, if_neg hbc] at h2
            rw [decide_eq_true_eq] at h1 h2
            have hac : a < c := lt_trans h1 h2
            simp only [charListLe, if_neg (ne_of_lt hac)]
            exact decide_eq_true hac

instance : IsTotal MetricStat (fun a b => strLe a.name b.name = true) :=
  ⟨fun a b => charListLe_total a.name.toList b.name.toList⟩

instance : IsTrans MetricStat (fun a b => strLe a.name b.name = true) :=
  ⟨fun a b c => charListLe_trans a.name.toList b.name.toList c.name.toList⟩

/-- The name recorded in a per-column stat is the column's name. -/
lemma statOfColumn_name {name : String} {col : List (Option ℚ)} {s : MetricStat}
    (h : statOfColumn name col = some s) : s.name = name := by
  unfold statOfColumn at h
  rcases hd : dropna col with _ | ⟨v, vs⟩ <;> rw [hd] at h
  · cases h
  · injection h with h
    rw [← h]

/-- A column yields a stat exactly when it has a usable value. -/
lemma statOfColumn_isSome (name : String) (col : List (Option ℚ)) :
    (statOfColumn name col).isSome = true ↔ dropna col ≠ [] := by
  unfold statOfColumn
  rcases hd : dropna col with _ | ⟨v, vs⟩ <;> simp

/-- C7: `metric_stats()` emits exactly one MetricStat per column with at
least one usable value (as a permutation of the per-column results, each
present iff the column's usable values are non-empty), sorted by name in
ordinal code-point order; an all-missing column also reaches no category
bucket. -/
theorem C7_stat_emission (t : List (String × List (Option ℚ))) :
    (metricStats t).Perm (t.filterMap (fun c => statOfColumn c.1 c.2)) ∧
    (∀ (name : String) (col : List (Option ℚ)),
      (statOfColumn name col).isSome = true ↔ dropna col ≠ []) ∧
    List.Sorted (fun a b : MetricStat => strLe a.name b.name = true)
      (metricStats t) ∧
    (∀ (kw : List (String × List String)) (cb : String × CategoryBucket)
      (m : MemberEntry), cb ∈ categoryStats kw (metricStats t) →
      m ∈ cb.2.metrics → ∃ c ∈ t, c.1 = m.full_name ∧ dropna c.2 ≠ []) := by
  refine ⟨List.perm_insertionSort _ _, statOfColumn_isSome, ?_, ?_⟩
  · exact List.sorted_insertionSort _ _
  · intro kw cb m hcb hm
    have hflat : m ∈ ((categoryStats kw (metricStats t)).map
        (fun cb => cb.2.metrics)).flatten := by
      rw [List.mem_flatten]
      exact ⟨cb.2.metrics, List.mem_map_of_mem _ hcb, hm⟩
    have hmem : m ∈ (metricStats t).map
        (fun s => (toMember kw s).2) :=
      (flatten_categoryStats kw (metricStats t)).mem_iff.mp hflat
    rcases List.mem_map.mp hmem with ⟨s, hs, hsm⟩
    have hs' : s ∈ t.filterMap (fun c => statOfColumn c.1 c.2) :=
      (List.perm_insertionSort _ _).mem_iff.mp hs
    rcases List.mem_filterMap.mp hs' with ⟨c, hc, hcs⟩
    refine ⟨c, hc, ?_, ?_⟩
    · rw [← hsm]
      show c.1 = (toMember kw s).2.full_name
      rw [show (toMember kw s).2.full_name = s.name from rfl]
      exact (statOfColumn_name hcs).symm
    · rw [← statOfColumn_isSome c.1]
      rw [hcs]
      rfl

/-- A table for the C7 witness: two usable columns (names out of order) and
one all-missing column. -/
def w7table : List (String × List (Option ℚ)) :=
  [("b", [some 1, none]), ("A", [some 2, some 4]), ("z", [none])]

/-- The single bucket built from `w7table` (both metric names fall back to
the keyword classifier and land in "Other"). -/
def w7cb : String × CategoryBucket :=
  (categoryStats DEFAULT_CATEGORY_KEYWORDS (metricStats w7table)).headD
    ("", ⟨[], 0, 0, 0⟩)

/-- The first member of that bucket. -/
def w7m : MemberEntry := w7cb.2.metrics.headD ⟨"", "", 0, 0, 0⟩

/-- Witness for C7 at `w7table`: the all-missing column "z" yields no stat,
the stat list is the sorted permutation of the two usable columns, and a
concrete bucket member traces back to a usable column. -/
theorem C7_stat_emission_witness :
    (metricStats w7table).Perm
      (w7table.filterMap (fun c => statOfColumn c.1 c.2)) ∧
    (dropna [(none : Option ℚ)] = [] ∧
      statOfColumn "z" [(none : Option ℚ)] = none ∧
      (statOfColumn "A" [some (2:ℚ), some 4]).isSome = true) ∧
    List.Sorted (fun a b : MetricStat => strLe a.name b.name = true)
      (metricStats w7table) ∧
    (w7cb ∈ categoryStats DEFAULT_CATEGORY_KEYWORDS (metricStats w7table) ∧
     w7m ∈ w7cb.2.metrics ∧
     ∃ c ∈ w7table, c.1 = w7m.full_name ∧ dropna c.2 ≠ []) := by
  have hcb : w7cb ∈ categoryStats DEFAULT_CATEGORY_KEYWORDS (metricStats w7table) := by
    rw [show categoryStats DEFAULT_CATEGORY_KEYWORDS (metricStats w7table) =
      [w7cb] from rfl]
    exact List.mem_singleton_self _
  have hm : w7m ∈ w7cb.2.metrics := by
    unfold w7m
    rcases hl : w7cb.2.metrics with _ | ⟨x, xs⟩
    · exact absurd hl (by decide)
    · simp
  refine ⟨(C7_stat_emission w7table).1,
    ⟨rfl, rfl, ((C7_stat_emission w7table).2.1 "A" _).mpr (by decide)⟩,
    (C7_stat_emission w7table).2.2.1,
    hcb, hm,
    (C7_stat_emission w7table).2.2.2 DEFAULT_CATEGORY_KEYWORDS w7cb w7m hcb hm⟩
